import Mathlib

/-!
Shallow embedding of the `genalloc` crate (src/lib.rs): a generational
allocation span (`Span`), generational pointers (`Ptr`), the per-thread
recycling pool (`RECYCLED_ALLOCS`), and the runtime-borrow-checked cells
(`RefCell<Option<Box<dyn Any>>>`) backing each allocation.

Modelling choices, all read off the source:
- A `Box<dyn Any>` payload is a pair of a runtime type id and a value,
  both naturals (`DynVal`); `downcast_ref::<T>` succeeds iff the stored
  type id equals the pointer's phantom type id.
- The process-static, never-freed `RefCell` cells are a growable table
  `List Cell`; an `Alloc` holds the index of its cell (`cellId`) in place
  of the `&'static RefCell` reference, plus its own `gen : u32` copy
  (naturals, with the `+= 1` of `Span::drop` wrapping mod `2^32`).
- A `RefCell`'s dynamic borrow state is `readers` (outstanding `Ref`
  guards) and `writer` (an outstanding `RefMut` guard); `borrow()` panics
  iff a writer is outstanding, `borrow_mut()` panics iff any borrow is.
- Rust panics (`assert_eq!`, `BorrowError`, `Result::unwrap`) are the
  three constructors of `Fault`, and every fallible operation returns
  `Except Fault`.
-/

namespace Genalloc

/-- Model of `Box<dyn Any>`: a runtime type id plus the payload. -/
structure DynVal where
  tyId : Nat
  val : Nat
deriving DecidableEq, Repr

/-- Model of one process-static `RefCell<Option<Box<dyn Any>>>`: its contents
plus its dynamic borrow state (outstanding `Ref` and `RefMut` guards). -/
structure Cell where
  content : Option DynVal
  readers : Nat
  writer : Bool
deriving DecidableEq, Repr

/-- A freshly leaked cell: `Box::leak(Default::default())` yields an
unborrowed `RefCell` holding `None`. -/
def Cell.empty : Cell := ⟨none, 0, false⟩

/-- Model of `struct Alloc { ptr: &'static RefCell<..>, gen: u32 }`; the
static reference is the index of the cell in the process-static table.
`Alloc` is `Copy` in the source, so it is a plain value here. -/
structure Alloc where
  cellId : Nat
  gen : Nat
deriving DecidableEq, Repr

/-- Model of `struct Ptr<T> { alloc: Alloc, gen: u32, _marker: PhantomData<T> }`;
the phantom type parameter `T` is its runtime type id `tyId`. -/
structure Ptr where
  alloc : Alloc
  gen : Nat
  tyId : Nat
deriving DecidableEq, Repr

/-- Model of `struct Span(Vec<Alloc>)`. -/
structure Span where
  allocs : List Alloc
deriving DecidableEq, Repr

/-- The three panics of the source: the `assert_eq!(self.gen, self.alloc.gen)`
generation assertion (the stale-handle fault), a `RefCell` borrow panic, and
the `unwrap` of `Ref/RefMut::filter_map` (empty cell or failed downcast). -/
inductive Fault where
  | staleGen
  | borrowConflict
  | downcastFail
deriving DecidableEq, Repr

/-- Reading a cell of the process-static table; indices produced by the model
are always in range, so the default is never observed on real traces. -/
def getCell (cells : List Cell) (i : Nat) : Cell :=
  cells[i]?.getD Cell.empty

/-- Writing a cell of the process-static table. -/
def setCell (cells : List Cell) (i : Nat) (c : Cell) : List Cell :=
  cells.set i c

/-- Wrap point of the `u32` generation counter. -/
def genMod : Nat := 2 ^ 32

/-- Model of `Alloc::default()`: leak a fresh empty `RefCell` (append a new
cell to the process-static table) and start at generation `0`. -/
def Alloc.fresh (cells : List Cell) : Alloc × List Cell :=
  (⟨cells.length, 0⟩, cells ++ [Cell.empty])

/-- Model of `RECYCLED_ALLOCS.with(|r| r.borrow_mut().pop()).unwrap_or_default()`.
The pool list's head is the top of the `Vec` (its last-pushed element). -/
def takeOrCreate (pool : List Alloc) (cells : List Cell) :
    Alloc × List Alloc × List Cell :=
  match pool with
  | a :: rest => (a, rest, cells)
  | [] =>
    let (a, cells') := Alloc.fresh cells
    (a, [], cells')

/-- Model of `Span::alloc::<T>(v)`: take or create an `Alloc`, push it onto the
span's vector, store `Some(Box::new(v))` through `alloc.ptr.borrow_mut()`
(which panics if the cell is currently borrowed), and return
`Ptr { gen: alloc.gen, alloc, _marker }`. -/
def Span.alloc (sp : Span) (t v : Nat) (cells : List Cell) (pool : List Alloc) :
    Except Fault (Ptr × Span × List Cell × List Alloc) :=
  let (a, pool', cells') := takeOrCreate pool cells
  let sp' : Span := ⟨sp.allocs ++ [a]⟩
  let c := getCell cells' a.cellId
  if c.readers = 0 ∧ c.writer = false then
    .ok (⟨a, a.gen, t⟩, sp', setCell cells' a.cellId { c with content := some ⟨t, v⟩ }, pool')
  else
    .error .borrowConflict

/-- Bump of `alloc.gen += 1` in `Span::drop` on the span's own `Alloc` copy,
with `u32` wrapping. -/
def bumpGen (a : Alloc) : Alloc :=
  { a with gen := (a.gen + 1) % genMod }

/-- Loop body of `Span::drop`: for each `Alloc` of the span in order, run
`alloc.ptr.take()` (a `borrow_mut`, panicking on an outstanding borrow, then
clearing the cell), bump the span's own generation copy, and push the copy
onto the recycling pool. -/
def dropAllocs : List Alloc → List Cell → List Alloc →
    Except Fault (List Cell × List Alloc)
  | [], cells, pool => .ok (cells, pool)
  | a :: rest, cells, pool =>
    let c := getCell cells a.cellId
    if c.readers = 0 ∧ c.writer = false then
      dropAllocs rest (setCell cells a.cellId { c with content := none }) (bumpGen a :: pool)
    else
      .error .borrowConflict

/-- Model of `impl Drop for Span`. -/
def Span.drop (sp : Span) (cells : List Cell) (pool : List Alloc) :
    Except Fault (List Cell × List Alloc) :=
  dropAllocs sp.allocs cells pool

/-- Model of `Ptr::read`: assert the captured generation against the embedded
`Alloc` copy's generation, acquire a shared borrow (panicking if a writer is
outstanding), then `Ref::filter_map(.., |any| any.as_ref()?.downcast_ref())`
followed by `unwrap`. On success the returned `Ref<'static, T>` guard is
recorded as one more outstanding reader. -/
def Ptr.read (p : Ptr) (cells : List Cell) : Except Fault (List Cell × Nat) :=
  if p.gen = p.alloc.gen then
    let c := getCell cells p.alloc.cellId
    if c.writer then .error .borrowConflict
    else
      match c.content with
      | none => .error .downcastFail
      | some dv =>
        if dv.tyId = p.tyId then
          .ok (setCell cells p.alloc.cellId { c with readers := c.readers + 1 }, dv.val)
        else .error .downcastFail
  else .error .staleGen

/-- Model of `Ptr::write`: same generation assertion, an exclusive borrow
(panicking if any borrow is outstanding), then `RefMut::filter_map` and
`unwrap`. On success the `RefMut<'static, T>` guard is the outstanding
writer. -/
def Ptr.write (p : Ptr) (cells : List Cell) : Except Fault (List Cell × Nat) :=
  if p.gen = p.alloc.gen then
    let c := getCell cells p.alloc.cellId
    if c.readers = 0 ∧ c.writer = false then
      match c.content with
      | none => .error .downcastFail
      | some dv =>
        if dv.tyId = p.tyId then
          .ok (setCell cells p.alloc.cellId { c with writer := true }, dv.val)
        else .error .downcastFail
    else .error .borrowConflict
  else .error .staleGen

/-- Model of `impl Clone for Ptr<T>`: `fn clone(&self) -> Self { *self }`
(and `Copy` is the same bitwise copy). -/
def Ptr.clone (p : Ptr) : Ptr := p

/-- Releasing a `Ref<'static, T>` guard (its `Drop` impl decrements the
cell's shared-borrow count). -/
def dropReadGuard (cells : List Cell) (i : Nat) : List Cell :=
  let c := getCell cells i
  setCell cells i { c with readers := c.readers - 1 }

/-- Releasing a `RefMut<'static, T>` guard (its `Drop` impl clears the
cell's exclusive borrow). -/
def dropWriteGuard (cells : List Cell) (i : Nat) : List Cell :=
  let c := getCell cells i
  setCell cells i { c with writer := false }

/-!
A small operational layer over the primitives above, used to speak about
states reachable by arbitrary client programs on one thread: the world holds
the process-static cell table, the thread-local `RECYCLED_ALLOCS` pool, the
live spans (`none` once dropped; indices are stable), and every `Ptr` the
client has received (a `Ptr` is `Copy`, so one representative per `alloc`
call suffices). A panic aborts the whole run.
-/

/-- One thread's state: the process-static cell table, the thread-local
recycling pool, the client's spans (dropped spans become `none`), and every
pointer handed out so far. -/
structure World where
  cells : List Cell
  pool : List Alloc
  spans : List (Option Span)
  ptrs : List Ptr
deriving DecidableEq, Repr

/-- The empty thread state: `RECYCLED_ALLOCS` starts as an empty `Vec` and
no cell has been leaked yet. -/
def initWorld : World := ⟨[], [], [], []⟩

/-- Client-visible operations: create a span, allocate in span `i`, read or
write through pointer `i`, drop the guard obtained from pointer `i`, and end
span `i`'s scope. -/
inductive Op where
  | newSpan
  | opAlloc (spanIdx tyId v : Nat)
  | opRead (ptrIdx : Nat)
  | opWrite (ptrIdx : Nat)
  | endRead (ptrIdx : Nat)
  | endWrite (ptrIdx : Nat)
  | dropSpan (spanIdx : Nat)
deriving DecidableEq, Repr

/-- One client operation acting on the world; operations naming a span or
pointer that does not exist are no-ops (they correspond to no real program). -/
def step (w : World) : Op → Except Fault World
  | .newSpan => .ok { w with spans := w.spans ++ [some ⟨[]⟩] }
  | .opAlloc i t v =>
    match w.spans[i]? with
    | some (some sp) =>
      match Span.alloc sp t v w.cells w.pool with
      | .error e => .error e
      | .ok (p, sp', cells', pool') =>
        .ok ⟨cells', pool', w.spans.set i (some sp'), w.ptrs ++ [p]⟩
    | _ => .ok w
  | .opRead i =>
    match w.ptrs[i]? with
    | some p =>
      match Ptr.read p w.cells with
      | .error e => .error e
      | .ok (cells', _) => .ok { w with cells := cells' }
    | none => .ok w
  | .opWrite i =>
    match w.ptrs[i]? with
    | some p =>
      match Ptr.write p w.cells with
      | .error e => .error e
      | .ok (cells', _) => .ok { w with cells := cells' }
    | none => .ok w
  | .endRead i =>
    match w.ptrs[i]? with
    | some p => .ok { w with cells := dropReadGuard w.cells p.alloc.cellId }
    | none => .ok w
  | .endWrite i =>
    match w.ptrs[i]? with
    | some p => .ok { w with cells := dropWriteGuard w.cells p.alloc.cellId }
    | none => .ok w
  | .dropSpan i =>
    match w.spans[i]? with
    | some (some sp) =>
      match Span.drop sp w.cells w.pool with
      | .error e => .error e
      | .ok (cells', pool') => .ok ⟨cells', pool', w.spans.set i none, w.ptrs⟩
    | _ => .ok w

/-- Running a straight-line client program; a panic aborts the run. -/
def run : List Op → World → Except Fault World
  | [], w => .ok w
  | op :: rest, w =>
    match step w op with
    | .error e => .error e
    | .ok w' => run rest w'

/-!
Basic lemmas about the cell table.
-/

theorem length_setCell (cells : List Cell) (i : Nat) (c : Cell) :
    (setCell cells i c).length = cells.length :=
  List.length_set cells i c

theorem getCell_setCell_self (cells : List Cell) (i : Nat) (c : Cell)
    (h : i < cells.length) : getCell (setCell cells i c) i = c := by
  simp [getCell, setCell, List.getElem?_set_self', h]

theorem getCell_setCell_ne (cells : List Cell) (i j : Nat) (c : Cell)
    (h : i ≠ j) : getCell (setCell cells i c) j = getCell cells j := by
  simp [getCell, setCell, List.getElem?_set_ne h]

theorem getCell_oob (cells : List Cell) (i : Nat) (h : ¬ i < cells.length) :
    getCell cells i = Cell.empty := by
  simp [getCell, List.getElem?_eq_none (Nat.le_of_not_lt h)]

theorem getCell_setCell_self_oob (cells : List Cell) (i : Nat) (c : Cell)
    (h : ¬ i < cells.length) : getCell (setCell cells i c) i = Cell.empty := by
  apply getCell_oob
  rw [length_setCell]
  exact h

/-!
Characterizations of the successful runs of each primitive.
-/

/-- Successful allocations: either the pool's top `Alloc` was popped, or the
pool was empty and a fresh generation-0 `Alloc` was leaked; either way the
value is stored, the span's vector grows by the `Alloc`, and the returned
pointer snapshots the `Alloc`'s generation. -/
theorem alloc_ok {sp : Span} {t v : Nat} {cells : List Cell} {pool : List Alloc}
    {p : Ptr} {sp' : Span} {cells' : List Cell} {pool' : List Alloc}
    (h : Span.alloc sp t v cells pool = .ok (p, sp', cells', pool')) :
    p.gen = p.alloc.gen ∧ p.tyId = t ∧ sp'.allocs = sp.allocs ++ [p.alloc] ∧
      ((∃ rest, pool = p.alloc :: rest ∧ pool' = rest ∧
          (getCell cells p.alloc.cellId).readers = 0 ∧
          (getCell cells p.alloc.cellId).writer = false ∧
          cells' = setCell cells p.alloc.cellId
            { getCell cells p.alloc.cellId with content := some ⟨t, v⟩ }) ∨
        (pool = [] ∧ pool' = [] ∧ p.alloc = ⟨cells.length, 0⟩ ∧
          cells' = setCell (cells ++ [Cell.empty]) cells.length ⟨some ⟨t, v⟩, 0, false⟩)) := by
  match pool with
  | a :: rest =>
    simp only [Span.alloc, takeOrCreate] at h
    split at h
    · rename_i hc
      simp only [Except.ok.injEq, Prod.mk.injEq] at h
      obtain ⟨h1, h2, h3, h4⟩ := h
      subst h1 h2 h3 h4
      exact ⟨rfl, rfl, rfl, .inl ⟨rest, rfl, rfl, hc.1, hc.2, rfl⟩⟩
    · exact absurd h (by simp)
  | [] =>
    simp only [Span.alloc, takeOrCreate, Alloc.fresh] at h
    have hc : getCell (cells ++ [Cell.empty]) cells.length = Cell.empty := by
      simp [getCell]
    rw [hc] at h
    split at h
    · simp only [Except.ok.injEq, Prod.mk.injEq] at h
      obtain ⟨h1, h2, h3, h4⟩ := h
      subst h1 h2 h3 h4
      exact ⟨rfl, rfl, rfl, .inr ⟨rfl, rfl, rfl, rfl⟩⟩
    · simp [Cell.empty] at *

/-- Successful reads: the generation assertion passed, no writer was
outstanding, the cell held a value of the pointer's type, that value is
returned, and one more reader guard is outstanding afterwards. -/
theorem read_ok {p : Ptr} {cells cells' : List Cell} {v : Nat}
    (h : Ptr.read p cells = .ok (cells', v)) :
    ∃ dv : DynVal,
      p.gen = p.alloc.gen ∧
      (getCell cells p.alloc.cellId).content = some dv ∧
      (getCell cells p.alloc.cellId).writer = false ∧
      dv.tyId = p.tyId ∧ v = dv.val ∧
      cells' = setCell cells p.alloc.cellId
        { getCell cells p.alloc.cellId with
            readers := (getCell cells p.alloc.cellId).readers + 1 } := by
  simp only [Ptr.read] at h
  split at h
  · rename_i hg
    split at h
    · exact absurd h (by simp)
    · rename_i hw
      split at h
      · exact absurd h (by simp)
      · rename_i dv hdv
        split at h
        · rename_i hty
          simp only [Except.ok.injEq, Prod.mk.injEq] at h
          exact ⟨dv, hg, hdv, by simpa using hw, hty, h.2.symm, h.1.symm⟩
        · exact absurd h (by simp)
  · exact absurd h (by simp)

/-- Successful writes: the generation assertion passed, no borrow was
outstanding, the cell held a value of the pointer's type, that value is
returned, and the writer guard is outstanding afterwards. -/
theorem write_ok {p : Ptr} {cells cells' : List Cell} {v : Nat}
    (h : Ptr.write p cells = .ok (cells', v)) :
    ∃ dv : DynVal,
      p.gen = p.alloc.gen ∧
      (getCell cells p.alloc.cellId).content = some dv ∧
      (getCell cells p.alloc.cellId).readers = 0 ∧
      (getCell cells p.alloc.cellId).writer = false ∧
      dv.tyId = p.tyId ∧ v = dv.val ∧
      cells' = setCell cells p.alloc.cellId
        { getCell cells p.alloc.cellId with writer := true } := by
  simp only [Ptr.write] at h
  split at h
  · rename_i hg
    split at h
    · rename_i hrw
      split at h
      · exact absurd h (by simp)
      · rename_i dv hdv
        split at h
        · rename_i hty
          simp only [Except.ok.injEq, Prod.mk.injEq] at h
          exact ⟨dv, hg, hdv, hrw.1, hrw.2, hty, h.2.symm, h.1.symm⟩
        · exact absurd h (by simp)
    · exact absurd h (by simp)
  · exact absurd h (by simp)

/-- Effect of `Span::drop` on the cell table: each owned cell's content is
taken (set to `None`), in order. -/
def clearCells (as : List Alloc) (cells : List Cell) : List Cell :=
  as.foldl (fun cs a => setCell cs a.cellId { getCell cs a.cellId with content := none }) cells

/-- Decidable form of: every cell owned by the span is back to the empty,
unborrowed state. -/
def allCleared (as : List Alloc) (cells : List Cell) : Bool :=
  as.all fun a => getCell cells a.cellId == Cell.empty

/-- Successful `Span::drop` loops: the bumped `Alloc` copies are pushed onto
the pool (in reverse, since the pool list's head is the `Vec`'s top), cells
outside the span are untouched, and every owned cell ends empty and
unborrowed. -/
theorem dropAllocs_ok {as : List Alloc} {cells pool cells' pool'}
    (h : dropAllocs as cells pool = .ok (cells', pool')) :
    pool' = (as.map bumpGen).reverse ++ pool ∧
    cells'.length = cells.length ∧
    (∀ j, j ∉ as.map Alloc.cellId → getCell cells' j = getCell cells j) ∧
    (∀ a ∈ as, getCell cells' a.cellId = Cell.empty) := by
  induction as generalizing cells pool with
  | nil =>
    simp only [dropAllocs, Except.ok.injEq, Prod.mk.injEq] at h
    obtain ⟨h1, h2⟩ := h
    subst h1 h2
    simp
  | cons a rest ih =>
    simp only [dropAllocs] at h
    split at h
    · rename_i hc
      obtain ⟨hp, hl, hout, hin⟩ := ih h
      refine ⟨?_, ?_, ?_, ?_⟩
      · rw [hp]
        simp
      · rw [hl, length_setCell]
      · intro j hj
        simp only [List.map_cons, List.mem_cons, not_or] at hj
        rw [hout j hj.2, getCell_setCell_ne _ _ _ _ (Ne.symm hj.1)]
      · intro b hb
        rcases List.mem_cons.mp hb with hba | hbr
        · subst hba
          by_cases hmem : b.cellId ∈ rest.map Alloc.cellId
          · obtain ⟨b', hb', hid⟩ := List.mem_map.mp hmem
            rw [← hid]
            exact hin b' hb'
          · rw [hout b.cellId hmem]
            by_cases hlt : b.cellId < cells.length
            · rw [getCell_setCell_self _ _ _ hlt]
              have := hc
              cases hcell : getCell cells b.cellId with
              | mk content readers writer =>
                rw [hcell] at hc
                obtain ⟨hr, hw⟩ := hc
                simp only at hr hw
                subst hr hw
                rfl
            · exact getCell_setCell_self_oob _ _ _ hlt
        · exact hin b hbr
    · exact absurd h (by simp)

/-- When no guard is outstanding on any of the span's cells, `Span::drop`'s
loop runs to completion: it clears every owned cell and pushes the bumped
copies onto the pool. -/
theorem dropAllocs_total {as : List Alloc} {cells : List Cell} {pool : List Alloc}
    (h : ∀ a ∈ as, (getCell cells a.cellId).readers = 0 ∧ (getCell cells a.cellId).writer = false) :
    dropAllocs as cells pool = .ok (clearCells as cells, (as.map bumpGen).reverse ++ pool) := by
  induction as generalizing cells pool with
  | nil => simp [dropAllocs, clearCells]
  | cons a rest ih =>
    have hc := h a (List.mem_cons_self a rest)
    rw [dropAllocs, if_pos hc]
    have hrest : ∀ b ∈ rest,
        (getCell (setCell cells a.cellId { getCell cells a.cellId with content := none }) b.cellId).readers = 0 ∧
        (getCell (setCell cells a.cellId { getCell cells a.cellId with content := none }) b.cellId).writer = false := by
      intro b hb
      by_cases hid : a.cellId = b.cellId
      · rw [← hid]
        by_cases hlt : a.cellId < cells.length
        · rw [getCell_setCell_self _ _ _ hlt]
          exact hc
        · rw [getCell_setCell_self_oob _ _ _ hlt]
          exact ⟨rfl, rfl⟩
      · rw [getCell_setCell_ne _ _ _ _ hid]
        exact h b (List.mem_cons_of_mem a hb)
    rw [ih hrest]
    simp [clearCells]

/-!
Claim theorems.
-/

/-- Value returned by a read, with the updated borrow state projected away. -/
def readVal (p : Ptr) (cells : List Cell) : Except Fault Nat :=
  (Ptr.read p cells).map Prod.snd

/-- Runs a client program from a fresh thread and then reads through the
`i`-th pointer ever handed out, returning what that read produces. -/
def readValOfTrace (ops : List Op) (i : Nat) : Option (Except Fault Nat) :=
  match run ops initWorld with
  | .error _ => none
  | .ok w =>
    match w.ptrs[i]? with
    | none => none
    | some p => some (readVal p w.cells)

/-- C1: the claim says a handle is valid iff its captured generation equals
the slot's current generation, and that `read()` after the owning arena's
scope end faults deterministically, even when the slot was reused by a later
arena for a value of the same type. The code violates this: allocate `7` at
type `0` in a first span, drop the span, allocate `42` at the same type in a
second span (which reuses the recycled slot), and `read()` through the stale
first pointer succeeds and returns the second span's value `42` — no fault
at all, because the generation assertion compares two fields of the `Ptr`
itself (its `gen` snapshot against its own embedded `Alloc` copy's `gen`),
which `Span::drop` never touches. -/
theorem c1_stale_read_after_same_type_reuse_succeeds :
    readValOfTrace [.newSpan, .opAlloc 0 0 7, .dropSpan 0, .newSpan, .opAlloc 1 0 42] 0 =
      some (.ok 42) := rfl

/-- C3 (counterexample): after cross-type slot reuse, `read()` through the
old handle does fail, but not with the stale-handle fault (the generation
assertion): it fails with the `unwrap` panic of the failed downcast. The
trace allocates type `0` in a first span, drops it, allocates type `1` in a
second span reusing the slot, and reads through the old pointer. -/
theorem c3_cross_type_fault_is_downcast_not_stale :
    readValOfTrace [.newSpan, .opAlloc 0 0 7, .dropSpan 0, .newSpan, .opAlloc 1 1 42] 0 =
      some (.error .downcastFail) ∧ Fault.downcastFail ≠ Fault.staleGen := ⟨rfl, by decide⟩

/-- C3 (amended): if the slot's cell currently holds a value of a type other
than the handle's, `read()` through the old handle still fails — via the
downcast `unwrap` panic, not the generation assertion (which passes) — and
never reinterprets the new type's value as the handle's type. -/
theorem c3_cross_type_read_still_faults (p : Ptr) (cells : List Cell) (dv : DynVal)
    (hg : p.gen = p.alloc.gen)
    (hc : (getCell cells p.alloc.cellId).content = some dv)
    (hw : (getCell cells p.alloc.cellId).writer = false)
    (ht : dv.tyId ≠ p.tyId) :
    Ptr.read p cells = .error .downcastFail := by
  simp [Ptr.read, hg, hc, hw, ht]

/-- Witness for C3 (amended) at a concrete stale pointer of type `0` over a
cell reused for type `1`. -/
theorem c3_cross_type_read_still_faults_witness :
    Ptr.read ⟨⟨0, 0⟩, 0, 0⟩ [⟨some ⟨1, 42⟩, 0, false⟩] = .error .downcastFail :=
  c3_cross_type_read_still_faults _ _ ⟨1, 42⟩ rfl rfl rfl (by decide)

/-- C4 (counterexample): the claim says arena scope end never fails
regardless of scoped views still held. But if a read guard obtained from a
live handle is still outstanding when the span drops, `alloc.ptr.take()`
inside `Span::drop` hits the `RefCell` borrow panic. -/
theorem c4_scope_end_faults_under_live_guard :
    run [.newSpan, .opAlloc 0 0 5, .opRead 0, .dropSpan 0] initWorld =
      .error .borrowConflict := rfl

/-- C4 (amended): when no read or write guard on the span's slots is
outstanding at scope end, `Span::drop` never fails: it takes every stored
value (leaving each owned cell empty and unborrowed), bumps each generation
copy by one, and pushes the slots into the recycling pool. -/
theorem c4_scope_end_clears_bumps_recycles (sp : Span) (cells : List Cell) (pool : List Alloc)
    (h : ∀ a ∈ sp.allocs,
      (getCell cells a.cellId).readers = 0 ∧ (getCell cells a.cellId).writer = false) :
    Span.drop sp cells pool =
        .ok (clearCells sp.allocs cells, (sp.allocs.map bumpGen).reverse ++ pool) ∧
      allCleared sp.allocs (clearCells sp.allocs cells) = true := by
  have hd := @dropAllocs_total sp.allocs cells pool h
  refine ⟨hd, ?_⟩
  have hok := dropAllocs_ok hd
  simp only [allCleared, List.all_eq_true]
  intro a ha
  have := hok.2.2.2 a ha
  simp [this]

/-- Witness for C4 (amended) on a one-slot span with no outstanding guard. -/
theorem c4_scope_end_clears_bumps_recycles_witness :
    Span.drop ⟨[⟨0, 5⟩]⟩ [⟨some ⟨0, 9⟩, 0, false⟩] [] =
        .ok (clearCells [⟨0, 5⟩] [⟨some ⟨0, 9⟩, 0, false⟩],
          ([⟨0, 5⟩].map bumpGen).reverse ++ []) ∧
      allCleared [⟨0, 5⟩] (clearCells [⟨0, 5⟩] [⟨some ⟨0, 9⟩, 0, false⟩]) = true :=
  c4_scope_end_clears_bumps_recycles ⟨[⟨0, 5⟩]⟩ [⟨some ⟨0, 9⟩, 0, false⟩] [] (by decide)

/-- C5: round-trip — allocating any storable value `v` in a span (over any
well-formed pool, whose slot indices point into the cell table) and
immediately reading through the returned pointer yields `v`. -/
theorem c5_alloc_read_roundtrip (sp : Span) (t v : Nat) (cells : List Cell) (pool : List Alloc)
    (p : Ptr) (sp' : Span) (cells' : List Cell) (pool' : List Alloc)
    (hpool : ∀ a ∈ pool, a.cellId < cells.length)
    (h : Span.alloc sp t v cells pool = .ok (p, sp', cells', pool')) :
    readVal p cells' = .ok v := by
  obtain ⟨hg, hty, hsp, hcase⟩ := alloc_ok h
  rcases hcase with ⟨rest, hpl, hpl', hr, hw, hcells⟩ | ⟨hpl, hpl', ha, hcells⟩
  · have hlt : p.alloc.cellId < cells.length := by
      apply hpool
      rw [hpl]
      exact List.mem_cons_self _ _
    have hget : getCell cells' p.alloc.cellId =
        { getCell cells p.alloc.cellId with content := some ⟨t, v⟩ } := by
      rw [hcells]
      exact getCell_setCell_self _ _ _ hlt
    simp [readVal, Ptr.read, hg, hget, hw, hty, Except.map]
  · have hlt : p.alloc.cellId < (cells ++ [Cell.empty]).length := by
      rw [ha]
      simp
    have hget : getCell cells' p.alloc.cellId = ⟨some ⟨t, v⟩, 0, false⟩ := by
      rw [hcells, ha]
      exact getCell_setCell_self _ _ _ (by simp)
    simp [readVal, Ptr.read, hg, hget, hty, Except.map]

/-- Witness for C5: allocating `9` at type `2` from a fresh thread and
reading it back. -/
theorem c5_alloc_read_roundtrip_witness :
    readVal ⟨⟨0, 0⟩, 0, 2⟩ [⟨some ⟨2, 9⟩, 0, false⟩] = .ok 9 :=
  c5_alloc_read_roundtrip ⟨[]⟩ 2 9 [] [] ⟨⟨0, 0⟩, 0, 2⟩ ⟨[⟨0, 0⟩]⟩
    [⟨some ⟨2, 9⟩, 0, false⟩] [] (by simp) rfl

/-- C6: borrow exclusivity — while the exclusive view obtained from a live
handle `p` is held, both `read()` and `write()` through any handle `q` over
the same slot fail immediately with the borrow-conflict fault, and after the
write view is released a subsequent `read()` succeeds and sees the value. -/
theorem c6_borrow_exclusivity (p q : Ptr) (cells : List Cell) (v : Nat)
    (hqp : q.alloc.cellId = p.alloc.cellId)
    (hqg : q.gen = q.alloc.gen) (hpg : p.gen = p.alloc.gen)
    (hqt : q.tyId = p.tyId)
    (hlt : p.alloc.cellId < cells.length)
    (hcell : getCell cells p.alloc.cellId = ⟨some ⟨p.tyId, v⟩, 0, false⟩) :
    Ptr.write p cells = .ok (setCell cells p.alloc.cellId ⟨some ⟨p.tyId, v⟩, 0, true⟩, v) ∧
    Ptr.read q (setCell cells p.alloc.cellId ⟨some ⟨p.tyId, v⟩, 0, true⟩) =
      .error .borrowConflict ∧
    Ptr.write q (setCell cells p.alloc.cellId ⟨some ⟨p.tyId, v⟩, 0, true⟩) =
      .error .borrowConflict ∧
    readVal q (dropWriteGuard (setCell cells p.alloc.cellId ⟨some ⟨p.tyId, v⟩, 0, true⟩)
      p.alloc.cellId) = .ok v := by
  have hgetW2 : getCell (setCell cells p.alloc.cellId ⟨some ⟨p.tyId, v⟩, 0, true⟩)
      p.alloc.cellId = ⟨some ⟨p.tyId, v⟩, 0, true⟩ :=
    getCell_setCell_self _ _ _ hlt
  have hgetW : getCell (setCell cells p.alloc.cellId ⟨some ⟨p.tyId, v⟩, 0, true⟩)
      q.alloc.cellId = ⟨some ⟨p.tyId, v⟩, 0, true⟩ := by
    rw [hqp]
    exact hgetW2
  refine ⟨?_, ?_, ?_, ?_⟩
  · simp [Ptr.write, hpg, hcell]
  · simp [Ptr.read, hqg, hgetW]
  · simp [Ptr.write, hqg, hgetW]
  · have hlt2 : p.alloc.cellId <
        (setCell cells p.alloc.cellId ⟨some ⟨p.tyId, v⟩, 0, true⟩).length := by
      rw [length_setCell]
      exact hlt
    have hgetD : getCell (dropWriteGuard (setCell cells p.alloc.cellId
        ⟨some ⟨p.tyId, v⟩, 0, true⟩) p.alloc.cellId) q.alloc.cellId =
        ⟨some ⟨p.tyId, v⟩, 0, false⟩ := by
      rw [hqp, dropWriteGuard, hgetW2]
      exact getCell_setCell_self _ _ _ hlt2
    simp [readVal, Ptr.read, hqg, hgetD, hqt, Except.map]

/-- Witness for C6 with a live handle over a one-cell table holding `8` at
type `1`. -/
theorem c6_borrow_exclusivity_witness :
    Ptr.write ⟨⟨0, 3⟩, 3, 1⟩ [⟨some ⟨1, 8⟩, 0, false⟩] =
      .ok (setCell [⟨some ⟨1, 8⟩, 0, false⟩] 0 ⟨some ⟨1, 8⟩, 0, true⟩, 8) ∧
    Ptr.read ⟨⟨0, 3⟩, 3, 1⟩ (setCell [⟨some ⟨1, 8⟩, 0, false⟩] 0 ⟨some ⟨1, 8⟩, 0, true⟩) =
      .error .borrowConflict ∧
    Ptr.write ⟨⟨0, 3⟩, 3, 1⟩ (setCell [⟨some ⟨1, 8⟩, 0, false⟩] 0 ⟨some ⟨1, 8⟩, 0, true⟩) =
      .error .borrowConflict ∧
    readVal ⟨⟨0, 3⟩, 3, 1⟩ (dropWriteGuard
      (setCell [⟨some ⟨1, 8⟩, 0, false⟩] 0 ⟨some ⟨1, 8⟩, 0, true⟩) 0) = .ok 8 :=
  c6_borrow_exclusivity ⟨⟨0, 3⟩, 3, 1⟩ ⟨⟨0, 3⟩, 3, 1⟩ [⟨some ⟨1, 8⟩, 0, false⟩] 8
    rfl rfl rfl rfl (by decide) rfl

/-- C7: copy independence — cloning a pointer is the bitwise copy `*self`,
so the copy is identical to the original, producing it touches no cell state
(`Ptr.clone` does not even take the cell table), and reading or writing
through the copy behaves exactly as through the original. -/
theorem c7_copy_independence (p : Ptr) (cells : List Cell) :
    Ptr.clone p = p ∧ Ptr.read (Ptr.clone p) cells = Ptr.read p cells ∧
      Ptr.write (Ptr.clone p) cells = Ptr.write p cells :=
  ⟨rfl, rfl, rfl⟩

/-- C8: `Span::alloc` pops the recycling pool's top slot when the pool is
non-empty and otherwise leaks a fresh generation-0 slot; it stores the value
into the slot's cell, appends the slot to the span's owned vector, returns a
pointer capturing the slot's current generation, and (over any reachable,
unborrowed pool) never fails. -/
theorem c8_alloc_spec (sp : Span) (t v : Nat) (cells : List Cell) (pool : List Alloc)
    (hpool : ∀ a ∈ pool, a.cellId < cells.length ∧
      (getCell cells a.cellId).readers = 0 ∧ (getCell cells a.cellId).writer = false) :
    Span.alloc sp t v cells pool =
      match pool with
      | a :: rest => .ok (⟨a, a.gen, t⟩, ⟨sp.allocs ++ [a]⟩,
          setCell cells a.cellId { getCell cells a.cellId with content := some ⟨t, v⟩ }, rest)
      | [] => .ok (⟨⟨cells.length, 0⟩, 0, t⟩, ⟨sp.allocs ++ [⟨cells.length, 0⟩]⟩,
          setCell (cells ++ [Cell.empty]) cells.length ⟨some ⟨t, v⟩, 0, false⟩, []) := by
  match pool with
  | a :: rest =>
    have hc := hpool a (List.mem_cons_self _ _)
    simp only [Span.alloc, takeOrCreate]
    rw [if_pos ⟨hc.2.1, hc.2.2⟩]
  | [] =>
    simp only [Span.alloc, takeOrCreate, Alloc.fresh]
    have hc : getCell (cells ++ [Cell.empty]) cells.length = Cell.empty := by
      simp [getCell]
    rw [hc, if_pos ⟨rfl, rfl⟩]
    rfl

/-- Witness for C8: allocation from a non-empty pool pops the recycled slot
and reuses it at its current generation. -/
theorem c8_alloc_spec_witness :
    Span.alloc ⟨[]⟩ 1 3 [⟨none, 0, false⟩] [⟨0, 4⟩] =
      .ok (⟨⟨0, 4⟩, 4, 1⟩, ⟨[⟨0, 4⟩]⟩,
        setCell [⟨none, 0, false⟩] 0
          { getCell [⟨none, 0, false⟩] 0 with content := some ⟨1, 3⟩ }, []) :=
  c8_alloc_spec ⟨[]⟩ 1 3 [⟨none, 0, false⟩] [⟨0, 4⟩] (by decide)

/-!
The reachable-state invariant behind C2 and C9.
-/

/-- Allocations owned by a possibly already dropped span. -/
def Span.optAllocs : Option Span → List Alloc
  | none => []
  | some s => s.allocs

/-- All allocations owned by live spans, in span order. -/
def spanJoin (l : List (Option Span)) : List Alloc :=
  l.flatMap Span.optAllocs

/-- State invariant maintained by every operation: pooled slots are in range
and their cells are empty and unborrowed; live spans' slots are in range; no
slot is owned twice (by the pool or any live span); and every pointer's
generation snapshot agrees with its embedded `Alloc` copy's generation. -/
structure WorldInv (w : World) : Prop where
  pool_free : ∀ a ∈ w.pool, a.cellId < w.cells.length ∧ getCell w.cells a.cellId = Cell.empty
  span_lt : ∀ a ∈ spanJoin w.spans, a.cellId < w.cells.length
  nodup : ((w.pool ++ spanJoin w.spans).map Alloc.cellId).Nodup
  ptr_gen : ∀ p ∈ w.ptrs, p.gen = p.alloc.gen

theorem spanJoin_append (l₁ l₂ : List (Option Span)) :
    spanJoin (l₁ ++ l₂) = spanJoin l₁ ++ spanJoin l₂ := by
  simp [spanJoin]

theorem spanJoin_set (l : List (Option Span)) (i : Nat) (s : Span)
    (h : l[i]? = some (some s)) :
    ∃ pre post, spanJoin l = pre ++ s.allocs ++ post ∧
      ∀ x, spanJoin (l.set i x) = pre ++ Span.optAllocs x ++ post := by
  induction l generalizing i with
  | nil => simp at h
  | cons o rest ih =>
    cases i with
    | zero =>
      simp only [List.getElem?_cons_zero, Option.some.injEq] at h
      subst h
      refine ⟨[], spanJoin rest, by simp [spanJoin, Span.optAllocs], ?_⟩
      intro x
      simp [spanJoin, List.set]
    | succ n =>
      simp only [List.getElem?_cons_succ] at h
      obtain ⟨pre, post, h1, h2⟩ := ih n h
      refine ⟨Span.optAllocs o ++ pre, post, ?_, ?_⟩
      · simp only [spanJoin, List.flatMap_cons] at *
        rw [h1]
        simp
      · intro x
        simp only [List.set, spanJoin, List.flatMap_cons] at *
        rw [h2 x]
        simp

theorem initWorldInv : WorldInv initWorld := by
  constructor <;> simp [initWorld, spanJoin]

theorem perm_swap_prefix {α : Type} (A B C : List α) :
    (A ++ (B ++ C)).Perm (B ++ (A ++ C)) := by
  have h := (@List.perm_append_comm _ A B).append_right C
  rwa [List.append_assoc, List.append_assoc] at h

theorem invStep_newSpan {w : World} (hw : WorldInv w) :
    WorldInv { w with spans := w.spans ++ [some ⟨[]⟩] } := by
  have hJ : spanJoin (w.spans ++ [some ⟨[]⟩]) = spanJoin w.spans := by
    rw [spanJoin_append]
    simp [spanJoin, Span.optAllocs]
  constructor
  · exact hw.pool_free
  · intro a ha
    rw [hJ] at ha
    exact hw.span_lt a ha
  · rw [hJ]
    exact hw.nodup
  · exact hw.ptr_gen

theorem invStep_read {w : World} {p : Ptr} {cells' : List Cell} {v : Nat}
    (hw : WorldInv w) (h : Ptr.read p w.cells = .ok (cells', v)) :
    WorldInv { w with cells := cells' } := by
  obtain ⟨dv, hg, hcon, hwz, hdt, hv, hcells⟩ := read_ok h
  have hlen : cells'.length = w.cells.length := by
    rw [hcells, length_setCell]
  have hne : ∀ a ∈ w.pool, a.cellId ≠ p.alloc.cellId := by
    intro a ha heq
    have hfree := (hw.pool_free a ha).2
    rw [← heq, hfree] at hcon
    simp [Cell.empty] at hcon
  constructor
  · intro a ha
    refine ⟨hlen ▸ (hw.pool_free a ha).1, ?_⟩
    rw [hcells, getCell_setCell_ne _ _ _ _ (Ne.symm (hne a ha))]
    exact (hw.pool_free a ha).2
  · intro a ha
    exact hlen ▸ hw.span_lt a ha
  · exact hw.nodup
  · exact hw.ptr_gen

theorem invStep_write {w : World} {p : Ptr} {cells' : List Cell} {v : Nat}
    (hw : WorldInv w) (h : Ptr.write p w.cells = .ok (cells', v)) :
    WorldInv { w with cells := cells' } := by
  obtain ⟨dv, hg, hcon, hr, hwz, hdt, hv, hcells⟩ := write_ok h
  have hlen : cells'.length = w.cells.length := by
    rw [hcells, length_setCell]
  have hne : ∀ a ∈ w.pool, a.cellId ≠ p.alloc.cellId := by
    intro a ha heq
    have hfree := (hw.pool_free a ha).2
    rw [← heq, hfree] at hcon
    simp [Cell.empty] at hcon
  constructor
  · intro a ha
    refine ⟨hlen ▸ (hw.pool_free a ha).1, ?_⟩
    rw [hcells, getCell_setCell_ne _ _ _ _ (Ne.symm (hne a ha))]
    exact (hw.pool_free a ha).2
  · intro a ha
    exact hlen ▸ hw.span_lt a ha
  · exact hw.nodup
  · exact hw.ptr_gen

theorem invStep_guardDrop {w : World} {cells' : List Cell} {j : Nat}
    (hw : WorldInv w)
    (hlen : cells'.length = w.cells.length)
    (hsame : getCell w.cells j = Cell.empty → getCell cells' j = Cell.empty)
    (hother : ∀ k, k ≠ j → getCell cells' k = getCell w.cells k) :
    WorldInv { w with cells := cells' } := by
  constructor
  · intro a ha
    refine ⟨hlen ▸ (hw.pool_free a ha).1, ?_⟩
    by_cases hj : a.cellId = j
    · rw [hj]
      exact hsame (hj ▸ (hw.pool_free a ha).2)
    · rw [hother a.cellId hj]
      exact (hw.pool_free a ha).2
  · intro a ha
    exact hlen ▸ hw.span_lt a ha
  · exact hw.nodup
  · exact hw.ptr_gen

theorem invStep_endRead {w : World} {j : Nat} (hw : WorldInv w) :
    WorldInv { w with cells := dropReadGuard w.cells j } := by
  apply invStep_guardDrop hw
  · rw [dropReadGuard, length_setCell]
  · intro hempty
    rw [dropReadGuard, hempty]
    by_cases hlt : j < w.cells.length
    · rw [getCell_setCell_self _ _ _ hlt]
      rfl
    · exact getCell_setCell_self_oob _ _ _ hlt
  · intro k hk
    rw [dropReadGuard, getCell_setCell_ne _ _ _ _ (Ne.symm hk)]

theorem invStep_endWrite {w : World} {j : Nat} (hw : WorldInv w) :
    WorldInv { w with cells := dropWriteGuard w.cells j } := by
  apply invStep_guardDrop hw
  · rw [dropWriteGuard, length_setCell]
  · intro hempty
    rw [dropWriteGuard, hempty]
    by_cases hlt : j < w.cells.length
    · rw [getCell_setCell_self _ _ _ hlt]
      rfl
    · exact getCell_setCell_self_oob _ _ _ hlt
  · intro k hk
    rw [dropWriteGuard, getCell_setCell_ne _ _ _ _ (Ne.symm hk)]

theorem invStep_alloc {w : World} {i t v : Nat} {sp sp' : Span} {p : Ptr}
    {cells' : List Cell} {pool' : List Alloc}
    (hw : WorldInv w) (hsp : w.spans[i]? = some (some sp))
    (halloc : Span.alloc sp t v w.cells w.pool = .ok (p, sp', cells', pool')) :
    WorldInv ⟨cells', pool', w.spans.set i (some sp'), w.ptrs ++ [p]⟩ := by
  obtain ⟨hg, hty, hsp', hcase⟩ := alloc_ok halloc
  obtain ⟨pre, post, hJ, hJset⟩ := spanJoin_set w.spans i sp hsp
  have hJnew : spanJoin (w.spans.set i (some sp')) = pre ++ (sp.allocs ++ [p.alloc]) ++ post := by
    rw [hJset (some sp')]
    simp [Span.optAllocs, hsp']
  have hmem_new : ∀ b, b ∈ spanJoin (w.spans.set i (some sp')) →
      b = p.alloc ∨ b ∈ spanJoin w.spans := by
    intro b hb
    rw [hJnew] at hb
    rw [hJ]
    simp only [List.mem_append, List.mem_singleton] at hb ⊢
    tauto
  rcases hcase with ⟨rest, hpl, hpl', hr, hwz, hcells⟩ | ⟨hpl, hpl', ha, hcells⟩
  · -- popped the top of the pool
    have hlen : cells'.length = w.cells.length := by
      rw [hcells, length_setCell]
    have halt : p.alloc.cellId < w.cells.length := by
      apply (hw.pool_free p.alloc ?_).1
      rw [hpl]
      exact List.mem_cons_self _ _
    have hnot : p.alloc.cellId ∉ ((rest ++ spanJoin w.spans).map Alloc.cellId) := by
      have h2 := hw.nodup
      rw [hpl] at h2
      simp only [List.cons_append, List.map_cons, List.nodup_cons] at h2
      exact h2.1
    constructor
    · intro a haMem
      have haPool : a ∈ w.pool := by
        rw [hpl, hpl'] at *
        exact List.mem_cons_of_mem _ haMem
      refine ⟨hlen ▸ (hw.pool_free a haPool).1, ?_⟩
      have hne : p.alloc.cellId ≠ a.cellId := by
        intro heq
        apply hnot
        rw [heq]
        apply List.mem_map_of_mem
        apply List.mem_append_left
        rw [← hpl']
        exact haMem
      rw [hcells, getCell_setCell_ne _ _ _ _ hne]
      exact (hw.pool_free a haPool).2
    · intro a haMem
      rcases hmem_new a haMem with hpa | hJmem
      · rw [hpa, hlen]
        exact halt
      · exact hlen ▸ hw.span_lt a hJmem
    · have step1 : (p.alloc :: rest) ++ (pre ++ sp.allocs ++ post) =
          p.alloc :: ((rest ++ pre ++ sp.allocs) ++ post) := by
        simp [List.append_assoc]
      have step3 : (rest ++ pre ++ sp.allocs) ++ (p.alloc :: post) =
          rest ++ (pre ++ (sp.allocs ++ [p.alloc]) ++ post) := by
        simp [List.append_assoc]
      have hperm : (w.pool ++ spanJoin w.spans).Perm
          (pool' ++ spanJoin (w.spans.set i (some sp'))) := by
        rw [hpl, hpl', hJ, hJnew, step1, ← step3]
        exact List.perm_middle.symm
      exact ((hperm.map Alloc.cellId).nodup hw.nodup)
    · intro q hq
      rcases List.mem_append.mp hq with hql | hqr
      · exact hw.ptr_gen q hql
      · rw [List.mem_singleton.mp hqr]
        exact hg
  · -- fresh slot
    have hlen : cells'.length = w.cells.length + 1 := by
      rw [hcells, length_setCell]
      simp
    constructor
    · intro a haMem
      rw [hpl'] at haMem
      simp at haMem
    · intro a haMem
      rcases hmem_new a haMem with hpa | hJmem
      · show a.cellId < cells'.length
        rw [hpa, ha, hlen]
        simp
      · show a.cellId < cells'.length
        rw [hlen]
        have := hw.span_lt a hJmem
        omega
    · have step1 : ([] : List Alloc) ++ (pre ++ (sp.allocs ++ [p.alloc]) ++ post) =
          (pre ++ sp.allocs) ++ (p.alloc :: post) := by
        simp [List.append_assoc]
      have step3 : p.alloc :: ((pre ++ sp.allocs) ++ post) =
          p.alloc :: (pre ++ sp.allocs ++ post) := by
        simp [List.append_assoc]
      have hperm : (pool' ++ spanJoin (w.spans.set i (some sp'))).Perm
          (p.alloc :: spanJoin w.spans) := by
        rw [hpl', hJ, hJnew, step1, ← step3]
        exact List.perm_middle
      apply (hperm.map Alloc.cellId).symm.nodup
      simp only [List.map_cons, List.nodup_cons]
      constructor
      · intro hmem
        obtain ⟨b, hb, hbid⟩ := List.mem_map.mp hmem
        have := hw.span_lt b hb
        rw [hbid] at this
        rw [ha] at this
        simp at this
      · have h2 := hw.nodup
        rw [hpl] at h2
        simpa using h2
    · intro q hq
      rcases List.mem_append.mp hq with hql | hqr
      · exact hw.ptr_gen q hql
      · rw [List.mem_singleton.mp hqr]
        exact hg

theorem invStep_dropSpan {w : World} {i : Nat} {sp : Span}
    {cells' : List Cell} {pool' : List Alloc}
    (hw : WorldInv w) (hsp : w.spans[i]? = some (some sp))
    (hd : Span.drop sp w.cells w.pool = .ok (cells', pool')) :
    WorldInv ⟨cells', pool', w.spans.set i none, w.ptrs⟩ := by
  rw [Span.drop] at hd
  obtain ⟨hp, hl, hout, hin⟩ := dropAllocs_ok hd
  obtain ⟨pre, post, hJ, hJset⟩ := spanJoin_set w.spans i sp hsp
  have hJnew : spanJoin (w.spans.set i none) = pre ++ post := by
    rw [hJset none]
    simp [Span.optAllocs]
  have hspan_sub : ∀ a ∈ sp.allocs, a ∈ spanJoin w.spans := by
    intro a ha
    rw [hJ]
    simp [ha]
  constructor
  · intro b hb
    rw [hp] at hb
    rcases List.mem_append.mp hb with hbs | hbp
    · rw [List.mem_reverse] at hbs
      obtain ⟨a, haMem, hba⟩ := List.mem_map.mp hbs
      have hid : b.cellId = a.cellId := by
        rw [← hba]
        rfl
      constructor
      · show b.cellId < cells'.length
        rw [hid, hl]
        exact hw.span_lt a (hspan_sub a haMem)
      · rw [hid]
        exact hin a haMem
    · constructor
      · show b.cellId < cells'.length
        rw [hl]
        exact (hw.pool_free b hbp).1
      · by_cases hmem : b.cellId ∈ sp.allocs.map Alloc.cellId
        · obtain ⟨a, haMem, hab⟩ := List.mem_map.mp hmem
          rw [← hab]
          exact hin a haMem
        · rw [hout b.cellId hmem]
          exact (hw.pool_free b hbp).2
  · intro a ha
    rw [hJnew] at ha
    show a.cellId < cells'.length
    rw [hl]
    apply hw.span_lt
    rw [hJ]
    simp only [List.mem_append] at ha ⊢
    tauto
  · have hbm : (sp.allocs.map bumpGen).map Alloc.cellId = sp.allocs.map Alloc.cellId := by
      rw [List.map_map]
      rfl
    have e1 : (w.pool ++ spanJoin w.spans).map Alloc.cellId =
        w.pool.map Alloc.cellId ++ (pre.map Alloc.cellId ++
          (sp.allocs.map Alloc.cellId ++ post.map Alloc.cellId)) := by
      rw [hJ]
      simp [List.append_assoc]
    have e2 : (pool' ++ spanJoin (w.spans.set i none)).map Alloc.cellId =
        (sp.allocs.map Alloc.cellId).reverse ++ (w.pool.map Alloc.cellId ++
          (pre.map Alloc.cellId ++ post.map Alloc.cellId)) := by
      rw [hp, hJnew]
      simp only [List.map_append, List.map_reverse, hbm, List.append_assoc]
    have hperm2 : (((w.pool ++ spanJoin w.spans).map Alloc.cellId)).Perm
        ((pool' ++ spanJoin (w.spans.set i none)).map Alloc.cellId) := by
      rw [e1, e2]
      apply List.Perm.symm
      refine ((List.reverse_perm _).append_right _).trans ?_
      simpa [List.append_assoc] using
        perm_swap_prefix (sp.allocs.map Alloc.cellId)
          (w.pool.map Alloc.cellId ++ pre.map Alloc.cellId) (post.map Alloc.cellId)
    exact hperm2.nodup hw.nodup
  · exact hw.ptr_gen

theorem stepInv {w : World} {op : Op} {w' : World}
    (hw : WorldInv w) (h : step w op = .ok w') : WorldInv w' := by
  cases op with
  | newSpan =>
    simp only [step, Except.ok.injEq] at h
    subst h
    exact invStep_newSpan hw
  | opAlloc i t v =>
    simp only [step] at h
    split at h
    · rename_i sp hsp
      split at h
      · exact absurd h (by simp)
      · rename_i r p sp' cells' pool' halloc
        simp only [Except.ok.injEq] at h
        subst h
        exact invStep_alloc hw hsp halloc
    · simp only [Except.ok.injEq] at h
      subst h
      exact hw
  | opRead i =>
    simp only [step] at h
    split at h
    · rename_i p hp
      split at h
      · exact absurd h (by simp)
      · rename_i r cells' v hr
        simp only [Except.ok.injEq] at h
        subst h
        exact invStep_read hw hr
    · simp only [Except.ok.injEq] at h
      subst h
      exact hw
  | opWrite i =>
    simp only [step] at h
    split at h
    · rename_i p hp
      split at h
      · exact absurd h (by simp)
      · rename_i r cells' v hr
        simp only [Except.ok.injEq] at h
        subst h
        exact invStep_write hw hr
    · simp only [Except.ok.injEq] at h
      subst h
      exact hw
  | endRead i =>
    simp only [step] at h
    split at h
    · simp only [Except.ok.injEq] at h
      subst h
      exact invStep_endRead hw
    · simp only [Except.ok.injEq] at h
      subst h
      exact hw
  | endWrite i =>
    simp only [step] at h
    split at h
    · simp only [Except.ok.injEq] at h
      subst h
      exact invStep_endWrite hw
    · simp only [Except.ok.injEq] at h
      subst h
      exact hw
  | dropSpan i =>
    simp only [step] at h
    split at h
    · rename_i sp hsp
      split at h
      · exact absurd h (by simp)
      · rename_i r cells' pool' hd
        simp only [Except.ok.injEq] at h
        subst h
        exact invStep_dropSpan hw hsp hd
    · simp only [Except.ok.injEq] at h
      subst h
      exact hw

theorem runInv {ops : List Op} {w w' : World}
    (hw : WorldInv w) (h : run ops w = .ok w') : WorldInv w' := by
  induction ops generalizing w with
  | nil =>
    simp only [run, Except.ok.injEq] at h
    subst h
    exact hw
  | cons op rest ih =>
    simp only [run] at h
    split at h
    · exact absurd h (by simp)
    · rename_i w1 hs
      exact ih (stepInv hw hs) h

/-- Decidable form of the pool invariant: every pooled slot's cell holds
`None`. -/
def World.poolClean (w : World) : Bool :=
  w.pool.all fun a => (getCell w.cells a.cellId).content.isNone

/-- C9: in every state reachable from a fresh thread by any sequence of span
creations, allocations, reads, writes, guard releases, and scope ends, every
slot in the recycling pool holds `None` in its value cell. -/
theorem c9_pool_slots_hold_none (ops : List Op) (w : World)
    (h : run ops initWorld = .ok w) : w.poolClean = true := by
  have hw := runInv initWorldInv h
  simp only [World.poolClean, List.all_eq_true]
  intro a ha
  rw [(hw.pool_free a ha).2]
  rfl

/-- Witness for C9 on the reachable state left by allocating once and
dropping the span. -/
theorem c9_pool_slots_hold_none_witness :
    World.poolClean ⟨[Cell.empty], [⟨0, 1⟩], [none], [⟨⟨0, 0⟩, 0, 0⟩]⟩ = true :=
  c9_pool_slots_hold_none [.newSpan, .opAlloc 0 0 5, .dropSpan 0] _ rfl

/-- C2: every pointer ever handed out on a thread satisfies
`Ptr.gen = Ptr.alloc.gen` — the two generation fields are set from the same
`Alloc` copy at creation and never mutated (`Span::drop` bumps only the
span's own copies) — so the generation assertion at the start of `read` and
`write` can never fire, against any cell table whatsoever: staleness is
detected, if at all, only by the cell holding `None` or a value of another
type. -/
theorem c2_generation_assertion_always_passes (ops : List Op) (w : World) (p : Ptr)
    (cells : List Cell) (h : run ops initWorld = .ok w) (hp : p ∈ w.ptrs) :
    p.gen = p.alloc.gen ∧ Ptr.read p cells ≠ .error .staleGen ∧
      Ptr.write p cells ≠ .error .staleGen := by
  have hw := runInv initWorldInv h
  have hg := hw.ptr_gen p hp
  refine ⟨hg, ?_, ?_⟩
  · simp only [Ptr.read, hg, if_true, eq_self_iff_true]
    split
    · simp
    · split
      · simp
      · split <;> simp
  · simp only [Ptr.write, hg, if_true, eq_self_iff_true]
    split
    · split
      · simp
      · split <;> simp
    · simp

/-- Witness for C2 on the pointer handed out by a single allocation, read
against the empty cell table (where the cell is absent altogether — the
generation assertion still cannot fire). -/
theorem c2_generation_assertion_always_passes_witness :
    Ptr.gen ⟨⟨0, 0⟩, 0, 7⟩ = Alloc.gen ⟨0, 0⟩ ∧
      Ptr.read ⟨⟨0, 0⟩, 0, 7⟩ [] ≠ .error .staleGen ∧
      Ptr.write ⟨⟨0, 0⟩, 0, 7⟩ [] ≠ .error .staleGen :=
  c2_generation_assertion_always_passes [.newSpan, .opAlloc 0 7 1]
    ⟨[⟨some ⟨7, 1⟩, 0, false⟩], [], [some ⟨[⟨0, 0⟩]⟩], [⟨⟨0, 0⟩, 0, 7⟩]⟩
    ⟨⟨0, 0⟩, 0, 7⟩ [] rfl (by simp)

/-- The client program of the recycling-reuse property: `n` times over,
create a span, allocate one value in it, and end its scope. The `k`-th
created span has index `k`. -/
def cycleOps (n : Nat) : List Op :=
  (List.range n).flatMap fun k => [.newSpan, .opAlloc k 0 0, .dropSpan k]

/-- Number of process-static backing cells ever leaked during a run. -/
def cellCount (e : Except Fault World) : Except Fault Nat :=
  e.map fun w => w.cells.length

theorem run_append (l₁ l₂ : List Op) (w : World) :
    run (l₁ ++ l₂) w =
      match run l₁ w with
      | .error e => .error e
      | .ok w' => run l₂ w' := by
  induction l₁ generalizing w with
  | nil => rfl
  | cons op rest ih =>
    simp only [List.cons_append, run]
    cases step w op <;> simp [ih]

theorem getElem?_replicate_append {α : Type} (n : Nat) (x y : α) :
    (List.replicate n x ++ [y])[n]? = some y := by
  induction n with
  | zero => rfl
  | succ m ih => simp [List.replicate_succ, ih]

theorem set_replicate_append {α : Type} (n : Nat) (x y z : α) :
    (List.replicate n x ++ [y]).set n z = List.replicate n x ++ [z] := by
  induction n with
  | zero => rfl
  | succ m ih => simp [List.replicate_succ, ih]

theorem cycleOps_succ (n : Nat) :
    cycleOps (n + 1) = cycleOps n ++ [.newSpan, .opAlloc n 0 0, .dropSpan n] := by
  rw [cycleOps, List.range_succ, List.flatMap_append]
  rfl

/-- Shape of the thread state after `n ≥ 1` allocate-and-drop cycles: one
single cell was ever leaked, and it sits recycled in the pool. -/
theorem cycles_shape (n : Nat) (h : 1 ≤ n) :
    ∃ g ps, run (cycleOps n) initWorld =
      .ok ⟨[Cell.empty], [⟨0, g⟩], List.replicate n none, ps⟩ := by
  induction n with
  | zero => omega
  | succ m ih =>
    rcases Nat.lt_or_ge m 1 with h1 | h2
    · refine ⟨1, [⟨⟨0, 0⟩, 0, 0⟩], ?_⟩
      have hm : m = 0 := by omega
      subst hm
      rfl
    ·
      obtain ⟨g, ps, hr⟩ := ih h2
      rw [cycleOps_succ, run_append, hr]
      refine ⟨(g + 1) % genMod, ps ++ [⟨⟨0, g⟩, g, 0⟩], ?_⟩
      have h1 : step ⟨[Cell.empty], [⟨0, g⟩], List.replicate m none, ps⟩ .newSpan =
          .ok ⟨[Cell.empty], [⟨0, g⟩], List.replicate m none ++ [some ⟨[]⟩], ps⟩ := rfl
      have h2 : step ⟨[Cell.empty], [⟨0, g⟩], List.replicate m none ++ [some ⟨[]⟩], ps⟩
          (.opAlloc m 0 0) =
          .ok ⟨[⟨some ⟨0, 0⟩, 0, false⟩], [],
            List.replicate m none ++ [some ⟨[⟨0, g⟩]⟩], ps ++ [⟨⟨0, g⟩, g, 0⟩]⟩ := by
        simp only [step, getElem?_replicate_append, set_replicate_append]
        rfl
      have h3 : step ⟨[⟨some ⟨0, 0⟩, 0, false⟩], [],
          List.replicate m none ++ [some ⟨[⟨0, g⟩]⟩], ps ++ [⟨⟨0, g⟩, g, 0⟩]⟩
          (.dropSpan m) =
          .ok ⟨[Cell.empty], [⟨0, (g + 1) % genMod⟩],
            List.replicate m none ++ [none], ps ++ [⟨⟨0, g⟩, g, 0⟩]⟩ := by
        simp only [step, getElem?_replicate_append, set_replicate_append]
        rfl
      rw [show List.replicate (m + 1) (none : Option Span) =
        List.replicate m none ++ [none] from List.replicate_succ' m none]
      simp only [run, h1, h2, h3]

/-- C10: recycling reuse — for every `n ≥ 1`, creating and end-scoping a
span `n` times in sequence on the same thread, allocating exactly one value
each time, leaks exactly one backing cell in total, independent of `n`. -/
theorem c10_recycling_reuse (n : Nat) (h : 1 ≤ n) :
    cellCount (run (cycleOps n) initWorld) = .ok 1 := by
  obtain ⟨g, ps, hr⟩ := cycles_shape n h
  rw [cellCount, hr]
  rfl

/-- Witness for C10 at three cycles. -/
theorem c10_recycling_reuse_witness : cellCount (run (cycleOps 3) initWorld) = .ok 1 :=
  c10_recycling_reuse 3 (by decide)

end Genalloc
